import Mathlib

/-!
# Verification of the souffle AST→RAM translator core

This file gives a shallow embedding of the RAM intermediate representation
(RamValue.h, RamOperation.h), the index-scan-keys analysis
(RamIndexScanKeys.cpp), and the AST→RAM translator (AstTranslator.h /
AstTranslator.cpp) of the repository, and proves or refutes the frozen
claims about them.

Modelling conventions:
* C++ class hierarchies become closed inductive types; virtual `clone` and
  `equal` become recursive functions dispatching on the variant.
* `std::unique_ptr` children that may legitimately be `nullptr` (wildcard
  slots) become `Option`; an `assert` that aborts the translator is
  modelled as returning `none` / `Except.error` (the code signals a fatal
  invariant violation; the unreachable fall-through returns after the
  asserts are dead code and are not modelled).
* machine integers (`int`, `size_t`, `RamDomain`) become `Int` / `Nat`;
  none of the verified paths can overflow their source-level width, and
  the width typedefs themselves are outside the source tree.
-/

set_option maxHeartbeats 1000000

namespace Souffle

/-- Ram Operator codes (RamOperator.h). -/
inductive RamOp where
  | ORD | STRLEN | NEG | BNOT | LNOT
  | ADD | SUB | MUL | DIV | EXP | MOD
  | BAND | BOR | BXOR | LAND | LOR
  | MAX | MIN | CAT
  | SUBSTR
  deriving DecidableEq, BEq

/-- Modelled from the spec: a RAM relation (RamRelation.h is not in the
source tree).  The translator constructs relations through
`getRamRelation(relation, typeEnv, name, arity, istemp, hashset)`; only the
name, the arity, the temporary flag and the hashset flag are observable in
the verified code, so a relation is a record of these four attributes,
deep `clone` is the identity and `equal` is structural equality. -/
structure RamRelation where
  name : String
  arity : Nat
  istemp : Bool
  hashset : Bool
  deriving DecidableEq

/-- Clone of a RAM relation (modelled from the spec: deep clone copies all
attributes). -/
def RamRelation.clone (r : RamRelation) : RamRelation := r

/-- Structural equality of RAM relations (modelled from the spec). -/
def RamRelation.requal (a b : RamRelation) : Bool := a == b

/-- RAM values (RamValue.h, `src/unnamed/part_001`).  `nullptr` argument
slots of `RamPack` (unnamed record fields) are modelled as `none`. -/
inductive RamValue where
  | intrinsic (operation : RamOp) (arguments : List RamValue)
  | elementAccess (ident : Nat) (element : Nat) (name : String)
  | number (constant : Int)
  | pack (arguments : List (Option RamValue))
  | argument (number : Nat)

/-- Aggregation functions (RamOperation.h, `RamAggregate::Function`). -/
inductive AggFunction where
  | MAX | MIN | COUNT | SUM
  deriving DecidableEq, BEq

/-- Comparison operators of a RAM condition.  Modelled from the spec
(RamCondition.h is not in the source tree): =, ≠, <, ≤, >, ≥ over domain
ints. -/
inductive ComparisonOp where
  | EQ | NE | LT | LE | GT | GE
  deriving DecidableEq, BEq

/-- RAM conditions.  Modelled from the spec (RamCondition.h is not in the
source tree): Conjunction, Comparison, ExistenceCheck, NotExistenceCheck
and Empty; existence-check patterns have one `Option` slot per column,
`none` being a wildcard. -/
inductive RamCondition where
  | conjunction (lhs rhs : RamCondition)
  | comparison (op : ComparisonOp) (lhs rhs : RamValue)
  | existenceCheck (relation : RamRelation) (pattern : List (Option RamValue))
  | notExistenceCheck (relation : RamRelation) (pattern : List (Option RamValue))
  | empty (relation : RamRelation)

/-- RAM operations (RamOperation.h): Scan, Lookup, Aggregate, Filter,
Project, Return. -/
inductive RamOperation where
  | scan (relation : RamRelation) (identifier : Nat) (nested : RamOperation)
  | lookup (nested : RamOperation) (value : RamValue) (arity : Nat)
  | aggregate (nested : RamOperation) (func : AggFunction) (aggOperation : RamOperation)
  | filter (condition : RamCondition) (nested : RamOperation)
  | project (relation : RamRelation) (values : List RamValue)
  | ramReturn (values : List RamValue)

mutual

/-- Deep clone of a RAM value, translated case by case from the `clone`
overrides in RamValue.h: every variant copies its scalar attributes and
clones its children; `RamPack::clone` keeps `nullptr` slots as
`nullptr`. -/
def RamValue.vclone : RamValue → RamValue
  | .intrinsic op args => .intrinsic op (RamValue.vcloneList args)
  | .elementAccess i e n => .elementAccess i e n
  | .number c => .number c
  | .pack args => .pack (RamValue.vcloneOpts args)
  | .argument n => .argument n

/-- Clone every element of an argument vector (`for (auto& cur : arguments)
... cur->clone()`). -/
def RamValue.vcloneList : List RamValue → List RamValue
  | [] => []
  | v :: vs => RamValue.vclone v :: RamValue.vcloneList vs

/-- Clone every element of a nullable argument vector (`RamPack::clone`:
a `nullptr` slot stays `nullptr`, any other slot is cloned). -/
def RamValue.vcloneOpts : List (Option RamValue) → List (Option RamValue)
  | [] => []
  | none :: vs => none :: RamValue.vcloneOpts vs
  | some v :: vs => some (RamValue.vclone v) :: RamValue.vcloneOpts vs

end

mutual

/-- Structural equality of RAM values, translated from the `equal`
overrides in RamValue.h (`RamNode::operator==` first compares the node
type, then dispatches to `equal`). -/
def RamValue.vequal : RamValue → RamValue → Bool
  | .intrinsic op1 a1, .intrinsic op2 a2 => op1 == op2 && RamValue.vequalList a1 a2
  | .elementAccess i1 e1 n1, .elementAccess i2 e2 n2 => i1 == i2 && e1 == e2 && n1 == n2
  | .number c1, .number c2 => c1 == c2
  | .pack a1, .pack a2 => RamValue.vequalOpts a1 a2
  | .argument n1, .argument n2 => n1 == n2
  | _, _ => false

/-- `equal_targets` on vectors of owned values: equal length and pairwise
equal elements. -/
def RamValue.vequalList : List RamValue → List RamValue → Bool
  | [], [] => true
  | v :: vs, w :: ws => RamValue.vequal v w && RamValue.vequalList vs ws
  | _, _ => false

/-- `equal_targets` on vectors of nullable owned values: `nullptr` slots
are equal only to `nullptr` slots. -/
def RamValue.vequalOpts : List (Option RamValue) → List (Option RamValue) → Bool
  | [], [] => true
  | none :: vs, none :: ws => RamValue.vequalOpts vs ws
  | some v :: vs, some w :: ws => RamValue.vequal v w && RamValue.vequalOpts vs ws
  | some _ :: _, none :: _ => false
  | none :: _, some _ :: _ => false
  | _, _ => false

end

/-- Deep clone of a RAM condition.  Modelled from the spec: clone copies
the subtree (the variant, all scalar attributes, and a deep clone of every
child, wildcards staying wildcards). -/
def RamCondition.cclone : RamCondition → RamCondition
  | .conjunction l r => .conjunction (RamCondition.cclone l) (RamCondition.cclone r)
  | .comparison op l r => .comparison op (RamValue.vclone l) (RamValue.vclone r)
  | .existenceCheck rel pat => .existenceCheck (RamRelation.clone rel) (RamValue.vcloneOpts pat)
  | .notExistenceCheck rel pat => .notExistenceCheck (RamRelation.clone rel) (RamValue.vcloneOpts pat)
  | .empty rel => .empty (RamRelation.clone rel)

/-- Structural equality of RAM conditions.  Modelled from the spec: same
variant, equal attributes, pairwise equal children. -/
def RamCondition.cequal : RamCondition → RamCondition → Bool
  | .conjunction l1 r1, .conjunction l2 r2 =>
      RamCondition.cequal l1 l2 && RamCondition.cequal r1 r2
  | .comparison op1 l1 r1, .comparison op2 l2 r2 =>
      op1 == op2 && RamValue.vequal l1 l2 && RamValue.vequal r1 r2
  | .existenceCheck rel1 p1, .existenceCheck rel2 p2 =>
      RamRelation.requal rel1 rel2 && RamValue.vequalOpts p1 p2
  | .notExistenceCheck rel1 p1, .notExistenceCheck rel2 p2 =>
      RamRelation.requal rel1 rel2 && RamValue.vequalOpts p1 p2
  | .empty rel1, .empty rel2 => RamRelation.requal rel1 rel2
  | _, _ => false

/-- Deep clone of a RAM operation, translated case by case from the
`clone` overrides in RamOperation.h.

Note on `RamAggregate::clone` (RamOperation.h lines 279-285): inside
`RamAggregate`, the member `getOperation()` declared at lines 244-248
returns the *aggregate* operation `*aggOperation` and hides the inherited
`RamNestedOperation::getOperation()` that returns the nested operation.
`clone` therefore builds
`new RamAggregate(getOperation().clone(), fun, aggOperation->clone())`
whose first (nested) slot receives a clone of the aggregate operation, not
of the nested operation.  The translation reproduces this faithfully. -/
def RamOperation.opclone : RamOperation → RamOperation
  | .scan rel ident nested =>
      .scan (RamRelation.clone rel) ident (RamOperation.opclone nested)
  | .lookup nested v a =>
      .lookup (RamOperation.opclone nested) (RamValue.vclone v) a
  | .aggregate _nested func aggOperation =>
      .aggregate (RamOperation.opclone aggOperation) func (RamOperation.opclone aggOperation)
  | .filter cond nested =>
      .filter (RamCondition.cclone cond) (RamOperation.opclone nested)
  | .project rel vals => .project (RamRelation.clone rel) (RamValue.vcloneList vals)
  | .ramReturn vals => .ramReturn (RamValue.vcloneList vals)

/-- Structural equality of RAM operations, translated from the `equal`
overrides in RamOperation.h: `RamNestedOperation::equal` compares the
nested operations; each subclass additionally compares its own
attributes (for `RamAggregate`: the function and the aggregate
operation). -/
def RamOperation.opequal : RamOperation → RamOperation → Bool
  | .scan rel1 id1 n1, .scan rel2 id2 n2 =>
      RamOperation.opequal n1 n2 && id1 == id2 && RamRelation.requal rel1 rel2
  | .lookup n1 v1 a1, .lookup n2 v2 a2 =>
      RamOperation.opequal n1 n2 && RamValue.vequal v1 v2 && a1 == a2
  | .aggregate n1 f1 agg1, .aggregate n2 f2 agg2 =>
      RamOperation.opequal n1 n2 && f1 == f2 && RamOperation.opequal agg1 agg2
  | .filter c1 n1, .filter c2 n2 =>
      RamCondition.cequal c1 c2 && RamOperation.opequal n1 n2
  | .project rel1 v1, .project rel2 v2 =>
      RamRelation.requal rel1 rel2 && RamValue.vequalList v1 v2
  | .ramReturn v1, .ramReturn v2 => RamValue.vequalList v1 v2
  | _, _ => false

/-! ## IndexScanKeys analysis (RamIndexScanKeys.cpp, `src/unnamed/part_003`) -/

/-- `RamIndexScanKeysAnalysis::getRangeQueryColumnsHelper`: starting from
`keys = 0`, for each index `i` of the range pattern, if slot `i` is not
`nullptr` then `keys |= (1 << i)`.  The `SearchColumns` typedef and the
width of the shifted literal are outside the source tree, so the bitmask
is modelled over unbounded naturals. -/
def getRangeQueryColumnsHelper (rangePattern : List (Option RamValue)) : Nat :=
  (rangePattern.enum).foldl
    (fun keys p => if p.2.isSome then keys ||| (1 <<< p.1) else keys) 0

/-! ## Location and ValueIndex (AstTranslator.h) -/

/-- The location of some value in a loop nest (AstTranslator.h lines
33-58): the loop level, the component within the tuple created at that
level, and the variable name. -/
structure Location where
  level : Int
  component : Int
  name : String
  deriving DecidableEq

/-- `Location::operator==` (AstTranslator.h lines 38-40): compares only
`level` and `component`; the `name` field does not participate. -/
def locationEq (a b : Location) : Bool :=
  a.level == b.level && a.component == b.component

/-- `Location::operator<` (AstTranslator.h lines 46-48): lexicographic on
`(level, component)`; the `name` field does not participate. -/
def locationLt (a b : Location) : Bool :=
  decide (a.level < b.level) || (a.level == b.level && decide (a.component < b.component))

/-- Insertion into an `std::set<Location>` ordered by `Location::operator<`:
the stored list is kept sorted, and an element equivalent to an existing
one (neither less nor greater) is not inserted. -/
def setInsert (l : Location) : List Location → List Location
  | [] => [l]
  | x :: xs =>
      if locationLt l x then l :: x :: xs
      else if locationLt x l then x :: setInsert l xs
      else x :: xs

/-- An AST aggregator.  The AST classes are outside the source tree; the
`ValueIndex` compares aggregators by value (`*cur.first == agg`), so an
aggregator is modelled as an abstract value with decidable equality. -/
structure AstAggregator where
  value : Nat
  deriving DecidableEq

/-- The index of variable, record and aggregator locations built during
the lowering of one clause (AstTranslator.h lines 65-217).
* `var_references` models the `std::map<std::string, std::set<Location>>`
  of variable occurrences (keys of the map are the variable names; each
  set is a `setInsert`-sorted list).
* `record_definitions` and `record_unpacks` are keyed by the identity of
  the `AstRecordInit` node (a pointer in the source), modelled as a `Nat`
  identifier.
* `aggregator_locations` is the vector of aggregator/location pairs. -/
structure ValueIndex where
  var_references : List (String × List Location)
  record_definitions : List (Nat × Location)
  record_unpacks : List (Nat × Int)
  aggregator_locations : List (AstAggregator × Location)
  deriving DecidableEq

/-- The empty value index (all maps default-constructed empty). -/
def ValueIndex.emptyIndex : ValueIndex := ⟨[], [], [], []⟩

/-- `var_references[var.getName()]` followed by `locs.insert(l)`: look up
the per-name set (default-constructing an empty one if absent) and insert
the location into it. -/
def mapInsertLocation (m : List (String × List Location)) (k : String) (l : Location) :
    List (String × List Location) :=
  match m with
  | [] => [(k, [l])]
  | (k0, s) :: rest =>
      if k0 == k then (k0, setInsert l s) :: rest
      else (k0, s) :: mapInsertLocation rest k l

/-- `ValueIndex::addVarReference(var, l)` (AstTranslator.h lines 106-109):
insert `l` into the location set of the variable's name. -/
def ValueIndex.addVarReference (vi : ValueIndex) (varName : String) (l : Location) :
    ValueIndex :=
  { vi with var_references := mapInsertLocation vi.var_references varName l }

/-- The stored location set of a variable, when present. -/
def ValueIndex.lookupVarSet (vi : ValueIndex) (varName : String) : Option (List Location) :=
  (vi.var_references.find? (fun e => e.1 == varName)).map (fun e => e.2)

/-- `ValueIndex::isDefined` (AstTranslator.h lines 115-117). -/
def ValueIndex.isDefined (vi : ValueIndex) (varName : String) : Bool :=
  (vi.var_references.find? (fun e => e.1 == varName)).isSome

/-- `ValueIndex::getDefinitionPoint(var)` (AstTranslator.h lines 119-123):
assert that the variable has an entry, then return `*pos->second.begin()`,
the first element of the ordered location set.  The failed assertion
(undefined variable) is modelled as `none`. -/
def ValueIndex.getDefinitionPoint (vi : ValueIndex) (varName : String) : Option Location :=
  match vi.lookupVarSet varName with
  | some s => s.head?
  | none => none

/-- `std::map::operator[] = value` on the record-definition map: overwrite
the entry for the key, or append a new one. -/
def recordMapSet (m : List (Nat × Location)) (k : Nat) (v : Location) :
    List (Nat × Location) :=
  match m with
  | [] => [(k, v)]
  | (k0, v0) :: rest =>
      if k0 == k then (k0, v) :: rest else (k0, v0) :: recordMapSet rest k v

/-- `ValueIndex::setRecordDefinition` (AstTranslator.h lines 133-135). -/
def ValueIndex.setRecordDefinition (vi : ValueIndex) (init : Nat) (l : Location) : ValueIndex :=
  { vi with record_definitions := recordMapSet vi.record_definitions init l }

/-- `ValueIndex::getDefinitionPoint(init)` for records (AstTranslator.h
lines 141-150): return the mapped location; for an unregistered record the
source hits `assert(false && "Requested location for undefined record!")`,
modelled as `none` (the `static Location fail` fall-through after the
assert is dead code). -/
def ValueIndex.getDefinitionPointRecord (vi : ValueIndex) (init : Nat) : Option Location :=
  (vi.record_definitions.find? (fun e => e.1 == init)).map (fun e => e.2)

/-- `std::map::operator[] = value` on the record-unpack map. -/
def unpackMapSet (m : List (Nat × Int)) (k : Nat) (v : Int) : List (Nat × Int) :=
  match m with
  | [] => [(k, v)]
  | (k0, v0) :: rest =>
      if k0 == k then (k0, v) :: rest else (k0, v0) :: unpackMapSet rest k v

/-- `ValueIndex::setRecordUnpackLevel` (AstTranslator.h lines 154-156). -/
def ValueIndex.setRecordUnpackLevel (vi : ValueIndex) (init : Nat) (level : Int) : ValueIndex :=
  { vi with record_unpacks := unpackMapSet vi.record_unpacks init level }

/-- `ValueIndex::getRecordUnpackLevel` (AstTranslator.h lines 158-165):
return the mapped level; for an unregistered record the source hits
`assert(false && "Requested record is not unpacked properly!")`, modelled
as `none` (the `return 0` fall-through is dead code). -/
def ValueIndex.getRecordUnpackLevel (vi : ValueIndex) (init : Nat) : Option Int :=
  (vi.record_unpacks.find? (fun e => e.1 == init)).map (fun e => e.2)

/-- `ValueIndex::setAggregatorLocation` (AstTranslator.h lines 169-171):
push the pair onto the vector. -/
def ValueIndex.setAggregatorLocation (vi : ValueIndex) (agg : AstAggregator) (loc : Location) :
    ValueIndex :=
  { vi with aggregator_locations := vi.aggregator_locations ++ [(agg, loc)] }

/-- `ValueIndex::getAggregatorLocation` (AstTranslator.h lines 173-187):
linear search of the vector for a pair whose aggregator equals the
requested one by value; an unsuccessful search hits
`assert(false && "Requested aggregation operation is not processed!")`,
modelled as `none` (the `static Location fail` fall-through is dead
code). -/
def ValueIndex.getAggregatorLocation (vi : ValueIndex) (agg : AstAggregator) :
    Option Location :=
  (vi.aggregator_locations.find? (fun cur => cur.1 == agg)).map (fun cur => cur.2)

/-! ## translateValue (AstTranslator.cpp, `src/src/AstTranslator.h` lines 273-332) -/

/-- AST arguments, restricted to the cases handled by the `ValueTranslator`
visitor in AstTranslator.cpp (the AST classes are outside the source
tree; the functor cases are commented out in the source and omitted).
Records carry the `Nat` identity used to key the `ValueIndex` maps. -/
inductive AstArgument where
  | variableArg (name : String)
  | unnamedVariable
  | constant (index : Int)
  | recordInit (id : Nat) (arguments : List AstArgument)
  | aggregator (agg : AstAggregator)
  | subroutineArgument (number : Nat)

mutual

/-- `translateValue` (AstTranslator.cpp): translate an AST argument to a
RAM value under a `ValueIndex`.
* a variable is translated to `RamElementAccess` at its definition point;
  the `ASSERT(index.isDefined(var))` and the assert inside
  `getDefinitionPoint` are modelled as `Except.error`;
* an unnamed variable yields `nullptr`, modelled as `Option.none`;
* a constant yields `RamNumber(c.getIndex())`;
* a record init packs the translations of its arguments;
* an aggregator is translated to `RamElementAccess` at the location bound
  by `getAggregatorLocation` (assert modelled as `Except.error`);
* a subroutine argument yields `RamArgument(n)`.
The `int` level/component of a `Location` convert to the `size_t`
constructor parameters of `RamElementAccess`; levels produced by the
translator are non-negative, so the conversion is modelled by
`Int.toNat`. -/
def translateValue (arg : AstArgument) (index : ValueIndex) :
    Except String (Option RamValue) :=
  match arg with
  | .variableArg name =>
      match index.getDefinitionPoint name with
      | some loc =>
          .ok (some (.elementAccess loc.level.toNat loc.component.toNat loc.name))
      | none => .error "variable not grounded"
  | .unnamedVariable => .ok none
  | .constant c => .ok (some (.number c))
  | .recordInit _ args =>
      match translateValueList args index with
      | .ok values => .ok (some (.pack values))
      | .error e => .error e
  | .aggregator agg =>
      match index.getAggregatorLocation agg with
      | some loc =>
          .ok (some (.elementAccess loc.level.toNat loc.component.toNat loc.name))
      | none => .error "aggregation operation is not processed"
  | .subroutineArgument n => .ok (some (.argument n))

/-- Translate the argument vector of a record init, keeping `nullptr`
results (wildcards) in their slots. -/
def translateValueList (args : List AstArgument) (index : ValueIndex) :
    Except String (List (Option RamValue)) :=
  match args with
  | [] => .ok []
  | a :: rest =>
      match translateValue a index with
      | .ok v =>
          match translateValueList rest index with
          | .ok vs => .ok (v :: vs)
          | .error e => .error e
      | .error e => .error e

end

/-! ## Configuration, AST inputs and RAM statements for the translator -/

/-- The global configuration store (`Global::config()`), modelled as an
association list of set options: `has` tests presence, `get` returns the
value or the empty string. -/
structure Config where
  entries : List (String × String)
  deriving DecidableEq

/-- `Global::config().get(key)`. -/
def Config.get (cfg : Config) (key : String) : String :=
  ((cfg.entries.find? (fun e => e.1 == key)).map (fun e => e.2)).getD ""

/-- `Global::config().has(key)`. -/
def Config.has (cfg : Config) (key : String) : Bool :=
  (cfg.entries.find? (fun e => e.1 == key)).isSome

/-- An AST relation, reduced to the attributes the translator reads:
`getRelationName(getName())`, `getArity()`, `isPrintSize()`,
`isHashset()` (the AST classes are outside the source tree). -/
structure AstRelation where
  name : String
  arity : Nat
  isPrintSize : Bool
  isHashset : Bool
  deriving DecidableEq

/-- An AST clause, reduced to the attributes the subroutine pass reads:
the head relation name (`clause.getHead()->getName()` printed to a
string), `getClauseNum()`, and the number of body literals
(`getBodyLiterals().empty()` is the only use). -/
structure AstClause where
  headName : String
  clauseNum : Nat
  bodyLiterals : Nat
  deriving DecidableEq

/-- The relation partitions of one SCC, as supplied by the `SCCGraph`
analysis (consumed verbatim; the analysis itself is outside the source
tree): recursion flag, internal relations, internal inputs, internal
outputs, external output predecessors, external non-output predecessors,
and internal non-outputs with external successors. -/
structure SCCData where
  isRecursive : Bool
  allInterns : List AstRelation
  internIns : List AstRelation
  internOuts : List AstRelation
  externOutPreds : List AstRelation
  externNonOutPreds : List AstRelation
  internNonOutsWithExternSuccs : List AstRelation

/-- IO directives for a load/store (`getInputIODirectives` /
`getOutputIODirectives` are outside the source tree; the translator
passes them the configured directory and the file extension, which is
what the claims observe). -/
structure IODirectives where
  directory : String
  extension : String
  deriving DecidableEq

/-- RAM statements, restricted to the constructors the translator emits
at statement level.  The body of a stratum produced by the clause
translators is an arbitrary `RamStatement`.  A `stratum` carries its list
of statements in emission order together with its index; `sequence` is
the top-level sequence; `logTimer` is the profiling wrapper with its
label. -/
inductive RamStatement where
  | create (relation : RamRelation)
  | load (relation : RamRelation) (directives : IODirectives)
  | printSize (relation : RamRelation)
  | store (relation : RamRelation) (directives : IODirectives)
  | drop (relation : RamRelation)
  | stratum (stmts : List RamStatement) (index : Nat)
  | sequence (stmts : List RamStatement)
  | logTimer (nested : RamStatement) (label : String)
  | query (operation : RamOperation)

/-- A RAM program: the main statement plus the map of named subroutines
(`RamProgram` with `addSubroutine`). -/
structure RamProgram where
  main : RamStatement
  subroutines : List (String × RamStatement)

/-- The relation argument of `getRamRelation` as the translator invokes
it: name `relationNamePrefix + getRelationName(relation->getName())`,
the relation's arity, `istemp = !relationNamePrefix.empty()`, and the
relation's hashset flag. -/
def ramRelationFor (relation : AstRelation) (relationNamePrefix : String) : RamRelation :=
  { name := relationNamePrefix ++ relation.name
    arity := relation.arity
    istemp := !(relationNamePrefix == "")
    hashset := relation.isHashset }

/-- `makeRamCreate` (AstTranslator.cpp lines 385-390). -/
def makeRamCreate (relation : AstRelation) (relationNamePrefix : String) : RamStatement :=
  .create (ramRelationFor relation relationNamePrefix)

/-- `makeRamLoad` (AstTranslator.cpp lines 393-401): loads the relation
from `Global::config().get(inputDirectory)` with the given extension. -/
def makeRamLoad (cfg : Config) (relation : AstRelation)
    (inputDirectory fileExtension : String) : RamStatement :=
  .load (ramRelationFor relation "") ⟨cfg.get inputDirectory, fileExtension⟩

/-- `makeRamPrintSize` (AstTranslator.cpp lines 404-408). -/
def makeRamPrintSize (relation : AstRelation) : RamStatement :=
  .printSize (ramRelationFor relation "")

/-- `makeRamStore` (AstTranslator.cpp lines 411-419). -/
def makeRamStore (cfg : Config) (relation : AstRelation)
    (outputDirectory fileExtension : String) : RamStatement :=
  .store (ramRelationFor relation "") ⟨cfg.get outputDirectory, fileExtension⟩

/-- `makeRamDrop` (AstTranslator.cpp lines 422-426). -/
def makeRamDrop (relation : AstRelation) : RamStatement :=
  .drop (ramRelationFor relation "")

/-- `appendStmt(current, stmt)`: append a non-null statement to the
accumulated statement list (the helper is outside the source tree; the
nested `RamSequence` bookkeeping it performs is flattened to a list,
preserving the emission order, which is what the claims observe). -/
def appendStmt (current : List RamStatement) : Option RamStatement → List RamStatement
  | none => current
  | some stmt => current ++ [stmt]

/-- The statements emitted for one SCC by the body of the main loop of
`AstTranslator::translateProgram` (AstTranslator.cpp lines 364-506),
translated phase by phase in source order:
1. create all internal relations (with `delta_` and `new_` variants when
   the SCC is recursive);
2. load all internal input relations from `fact-dir` with `.facts`;
3. with an engine, load external output predecessors (`output-dir`,
   `.csv`) then external non-output predecessors (`output-dir`,
   `.facts`);
4. the body statement — `translateNonRecursiveRelation` on the first
   internal relation, or `translateRecursiveRelation` on the SCC (both
   are declared but not defined in the source tree, so they are taken as
   parameters; a `none` result is skipped by `appendStmt`);
5. print the size of internal printsize relations;
6. with an engine, store internal non-outputs with external successors;
7. store internal outputs;
8. without provenance: with an engine drop all internals and external
   predecessors, otherwise drop the expired relations `internExps`. -/
def stratumStmts (cfg : Config) (scc : SCCData) (internExps : List AstRelation)
    (translateNonRecursiveRelation : AstRelation → Option RamStatement)
    (translateRecursiveRelation : List AstRelation → Option RamStatement) :
    List RamStatement :=
  let current : List RamStatement := []
  let current := scc.allInterns.foldl
    (fun cur relation =>
      let cur := appendStmt cur (some (makeRamCreate relation ""))
      if scc.isRecursive then
        appendStmt (appendStmt cur (some (makeRamCreate relation "delta_")))
          (some (makeRamCreate relation "new_"))
      else cur) current
  let current := scc.internIns.foldl
    (fun cur relation => appendStmt cur (some (makeRamLoad cfg relation "fact-dir" ".facts")))
    current
  let current :=
    if cfg.has "engine" then
      let cur := scc.externOutPreds.foldl
        (fun cur relation => appendStmt cur (some (makeRamLoad cfg relation "output-dir" ".csv")))
        current
      scc.externNonOutPreds.foldl
        (fun cur relation => appendStmt cur (some (makeRamLoad cfg relation "output-dir" ".facts")))
        cur
    else current
  let bodyStatement : Option RamStatement :=
    if !scc.isRecursive then
      match scc.allInterns.head? with
      | some relation => translateNonRecursiveRelation relation
      | none => none
    else translateRecursiveRelation scc.allInterns
  let current := appendStmt current bodyStatement
  let current := scc.allInterns.foldl
    (fun cur relation =>
      if relation.isPrintSize then appendStmt cur (some (makeRamPrintSize relation)) else cur)
    current
  let current :=
    if cfg.has "engine" then
      scc.internNonOutsWithExternSuccs.foldl
        (fun cur relation => appendStmt cur (some (makeRamStore cfg relation "output-dir" ".facts")))
        current
    else current
  let current := scc.internOuts.foldl
    (fun cur relation => appendStmt cur (some (makeRamStore cfg relation "output-dir" ".csv")))
    current
  let current :=
    if !(cfg.has "provenance") then
      if cfg.has "engine" then
        let cur := scc.allInterns.foldl
          (fun cur relation => appendStmt cur (some (makeRamDrop relation))) current
        let cur := scc.externOutPreds.foldl
          (fun cur relation => appendStmt cur (some (makeRamDrop relation))) cur
        scc.externNonOutPreds.foldl
          (fun cur relation => appendStmt cur (some (makeRamDrop relation))) cur
      else
        internExps.foldl
          (fun cur relation => appendStmt cur (some (makeRamDrop relation))) current
    else current
  current

/-- Does `relName.str().find(needle)` succeed, i.e. does `hay` contain
`needle` as a contiguous substring?  (`std::string::find != npos`.) -/
def startsWithChars : List Char → List Char → Bool
  | [], _ => true
  | _ :: _, [] => false
  | c :: cs, h :: hs => c == h && startsWithChars cs hs

/-- Substring search over the character lists of the strings. -/
def containsChars (needle : List Char) : List Char → Bool
  | [] => startsWithChars needle []
  | h :: hs => startsWithChars needle (h :: hs) || containsChars needle hs

/-- `hay.find(needle) != std::string::npos`. -/
def stringFind (hay needle : String) : Bool :=
  containsChars needle.toList hay.toList

/-- `AstTranslator::translateProgram` (AstTranslator.cpp lines 335-542).
* With an empty SCC graph, return early with a program wrapping the empty
  sequence (lines 356-358).
* Otherwise iterate over the topologically ordered SCCs; for each, emit
  `stratumStmts` into a `RamStratum` carrying the running index, which is
  incremented only when the stratum is non-empty (lines 508-513); the
  expiry set for the iteration is `expirySchedule.at(index)`.
* Wrap the top sequence in a `LogTimer` labelled `runtime` when
  profiling (lines 517-519).
* With provenance, visit every clause of the program and add a
  subroutine labelled `<relName>_<clauseNum>_subproof` unless the head
  relation name contains `@info` or the body is empty (lines 524-539);
  `makeSubproofSubroutine` is outside the source tree and is a
  parameter. -/
def translateProgram (cfg : Config) (sccOrder : List SCCData)
    (expirySchedule : List (List AstRelation)) (clauses : List AstClause)
    (translateNonRecursiveRelation : AstRelation → Option RamStatement)
    (translateRecursiveRelation : List AstRelation → Option RamStatement)
    (makeSubproofSubroutine : AstClause → RamStatement) : RamProgram :=
  if sccOrder.isEmpty then { main := .sequence [], subroutines := [] }
  else
    let resPair := sccOrder.foldl
      (fun (acc : List RamStatement × Nat) scc =>
        let current := stratumStmts cfg scc (expirySchedule.getD acc.2 [])
          translateNonRecursiveRelation translateRecursiveRelation
        if current.isEmpty then acc
        else (acc.1 ++ [RamStatement.stratum current acc.2], acc.2 + 1))
      ([], 0)
    let res := RamStatement.sequence resPair.1
    let res := if cfg.has "profile" then RamStatement.logTimer res "runtime" else res
    let subroutines :=
      if cfg.has "provenance" then
        clauses.foldl
          (fun acc clause =>
            if stringFind clause.headName "@info" || clause.bodyLiterals == 0 then acc
            else
              acc ++ [(clause.headName ++ "_" ++ toString clause.clauseNum ++ "_subproof",
                makeSubproofSubroutine clause)])
          []
      else []
    { main := res, subroutines := subroutines }

/-! ## translateUnit (AstTranslator.cpp lines 544-572) -/

/-- The pieces of an AST translation unit that `translateUnit` touches:
the symbol table, the error report and the debug report (each modelled as
the list of its entries; their internal structure is outside the source
tree and never inspected). -/
structure AstTranslationUnitModel where
  symbolTable : List String
  errorReport : List String
  debugReport : List (String × String)
  deriving DecidableEq

/-- A RAM translation unit: the (possibly null) RAM program together with
the symbol table, error report and debug report. -/
structure RamTranslationUnitModel where
  program : Option RamProgram
  symbolTable : List String
  errorReport : List String
  debugReport : List (String × String)

/-- `AstTranslator::translateUnit` (AstTranslator.cpp lines 544-572),
translated as written: `ramProg` is initialised to `nullptr` and never
assigned afterwards; when the `debug-report` option is non-empty and
`ramProg` is non-null a `ram-program` section is appended to the debug
report (this branch is unreachable; the textual dump in it is elided);
finally a translation unit wrapping `ramProg` and the unchanged symbol
table, error report and debug report is returned.  (The trailing
`return nullptr;` after the `return` statement is dead code; the file
write of the debug report is I/O outside the model.) -/
def translateUnit (cfg : Config) (tu : AstTranslationUnitModel) : RamTranslationUnitModel :=
  let ramProg : Option RamProgram := none
  let debugReport :=
    if !(cfg.get "debug-report" == "") then
      match ramProg with
      | some _ => tu.debugReport ++ [("ram-program", "")]
      | none => tu.debugReport
    else tu.debugReport
  { program := ramProg
    symbolTable := tu.symbolTable
    errorReport := tu.errorReport
    debugReport := debugReport }

/-! ## Spec-side per-stratum phase blocks (spec §4.3.1)

These definitions follow the wording of the specification's per-stratum
plan; the refinement theorems below relate them to the source-translated
`stratumStmts`. -/

/-- Spec §4.3.1 step 1: a `Create` for every internal relation; if the
SCC is recursive, also create its `delta_` and `new_` auxiliary
relations. -/
def specCreateStatements (scc : SCCData) : List RamStatement :=
  scc.allInterns.flatMap (fun relation =>
    makeRamCreate relation "" ::
      (if scc.isRecursive then
        [makeRamCreate relation "delta_", makeRamCreate relation "new_"]
      else []))

/-- Spec §4.3.1 step 2: `Load` every internal input relation from the
facts directory with extension `.facts`. -/
def specFactLoadStatements (cfg : Config) (scc : SCCData) : List RamStatement :=
  scc.internIns.map (fun relation => makeRamLoad cfg relation "fact-dir" ".facts")

/-- Spec §4.3.1 step 3: if a communication engine is configured, `Load`
external output predecessors from the output directory (`.csv`) and
external non-output predecessors (`.facts`). -/
def specEngineLoadStatements (cfg : Config) (scc : SCCData) : List RamStatement :=
  if cfg.has "engine" then
    scc.externOutPreds.map (fun relation => makeRamLoad cfg relation "output-dir" ".csv") ++
      scc.externNonOutPreds.map (fun relation => makeRamLoad cfg relation "output-dir" ".facts")
  else []

/-- Spec §4.3.1 step 4: one call to either non-recursive or recursive
translation (zero statements when the translation yields nothing). -/
def specBodyStatements (scc : SCCData)
    (translateNonRecursiveRelation : AstRelation → Option RamStatement)
    (translateRecursiveRelation : List AstRelation → Option RamStatement) :
    List RamStatement :=
  (if !scc.isRecursive then
    match scc.allInterns.head? with
    | some relation => translateNonRecursiveRelation relation
    | none => none
  else translateRecursiveRelation scc.allInterns).toList

/-- Spec §4.3.1 step 5: `PrintSize` for every internal relation flagged
printsize. -/
def specPrintSizeStatements (scc : SCCData) : List RamStatement :=
  (scc.allInterns.filter (fun relation => relation.isPrintSize)).map makeRamPrintSize

/-- Spec §4.3.1 step 6: if a communication engine is configured, `Store`
internal non-output relations with external successors (`.facts`). -/
def specEngineStoreStatements (cfg : Config) (scc : SCCData) : List RamStatement :=
  if cfg.has "engine" then
    scc.internNonOutsWithExternSuccs.map
      (fun relation => makeRamStore cfg relation "output-dir" ".facts")
  else []

/-- Spec §4.3.1 step 7: `Store` internal output relations (`.csv`). -/
def specOutputStoreStatements (cfg : Config) (scc : SCCData) : List RamStatement :=
  scc.internOuts.map (fun relation => makeRamStore cfg relation "output-dir" ".csv")

/-- Spec §4.3.1 step 8: if provenance is disabled, with an engine `Drop`
all internals and external predecessors; without an engine `Drop` only
the relations expired at the current stratum. -/
def specDropStatements (cfg : Config) (scc : SCCData) (internExps : List AstRelation) :
    List RamStatement :=
  if cfg.has "provenance" then []
  else if cfg.has "engine" then
    (scc.allInterns ++ scc.externOutPreds ++ scc.externNonOutPreds).map makeRamDrop
  else internExps.map makeRamDrop

/-! ## Concrete fixtures used by counterexamples and witnesses -/

/-- A sample unary relation `R`. -/
def relR : RamRelation := ⟨"R", 1, false, false⟩

/-- A `RamAggregate` node whose nested operation (`RETURN ()`) differs
from its aggregate operation (`PROJECT () INTO R`). -/
def aggregateExample : RamOperation :=
  .aggregate (.ramReturn []) .COUNT (.project relR [])

/-- A sample `RamScan` node. -/
def scanExample : RamOperation :=
  .scan relR 0 (.project relR [.elementAccess 0 0 ""])

/-- A sample `RamPack` node with a `nullptr` wildcard slot. -/
def packExample : RamValue := .pack [some (.number 1), none, some (.elementAccess 0 0 "")]

/-- The index built from the occurrence history used by the claim-C3
counterexample: the variable `v` is first recorded at level 2 component
0, and later at level 1 component 3. -/
def buildIndex (history : List (String × Location)) : ValueIndex :=
  history.foldl (fun vi e => vi.addVarReference e.1 e.2) ValueIndex.emptyIndex

/-- All locations recorded for a variable by a history of
`addVarReference` calls, in call order. -/
def historyLocs (history : List (String × Location)) (varName : String) : List Location :=
  (history.filter (fun e => e.1 == varName)).map (fun e => e.2)

/-- Occurrence history where the earliest recorded occurrence of `v` is
not the least in the `(level, component)` order. -/
def historyExample : List (String × Location) :=
  [("v", ⟨2, 0, ""⟩), ("v", ⟨1, 3, ""⟩)]

/-- Two locations agreeing on `(level, component)` but with different
variable names. -/
def locX : Location := ⟨1, 2, "x"⟩

/-- See `locX`. -/
def locY : Location := ⟨1, 2, "y"⟩

/-- A sample aggregator. -/
def agg0 : AstAggregator := ⟨0⟩

/-- An empty configuration store (no options set). -/
def cfgEmpty : Config := ⟨[]⟩

/-- A configuration with only `provenance` set. -/
def cfgProvenance : Config := ⟨[("provenance", "")]⟩

/-- A sample AST relation. -/
def relA : AstRelation := ⟨"A", 2, false, false⟩

/-- A sample non-recursive SCC containing only `relA`. -/
def sccA : SCCData := ⟨false, [relA], [relA], [relA], [], [], []⟩

/-- A sample clause `A(…) :- …` with two body literals. -/
def clauseA : AstClause := ⟨"A", 1, 2⟩

/-- A sample info clause (`@info` in the head relation name). -/
def clauseInfo : AstClause := ⟨"A@info", 1, 2⟩

/-- A sample fact (empty body). -/
def clauseFact : AstClause := ⟨"A", 2, 0⟩

/-- Trivial stand-in for the missing clause translators. -/
def tNone : AstRelation → Option RamStatement := fun _ => none

/-- Trivial stand-in for the missing recursive translator. -/
def tRNone : List AstRelation → Option RamStatement := fun _ => none

/-- Trivial stand-in for the missing `makeSubproofSubroutine`. -/
def makeSubproofSubroutine0 : AstClause → RamStatement := fun _ => .sequence []

/-- Invariant relating a `ValueIndex` entry for a variable to the
multiset `R` of locations inserted for it so far: either the variable has
no entry and nothing was inserted, or the entry's set starts with an
inserted location that no inserted location is strictly below in the
`(level, component)` order. -/
def HeadMin (vi : ValueIndex) (varName : String) (R : List Location) : Prop :=
  (vi.lookupVarSet varName = none ∧ R = []) ∨
    (∃ s h, vi.lookupVarSet varName = some s ∧ s.head? = some h ∧ h ∈ R ∧
      ∀ l ∈ R, locationLt l h = false)

/-! ## Theorems -/

mutual

/-- `RamValue::clone` is the structural identity on values: every variant
copies its scalars and deep-clones its children into the same slots. -/
theorem RamValue.vclone_id : (v : RamValue) → RamValue.vclone v = v
  | .intrinsic op args => by rw [RamValue.vclone, RamValue.vcloneList_id args]
  | .elementAccess _ _ _ => rfl
  | .number _ => rfl
  | .pack args => by rw [RamValue.vclone, RamValue.vcloneOpts_id args]
  | .argument _ => rfl

/-- Cloning an argument vector is the identity. -/
theorem RamValue.vcloneList_id : (l : List RamValue) → RamValue.vcloneList l = l
  | [] => rfl
  | v :: vs => by
      rw [RamValue.vcloneList, RamValue.vclone_id v, RamValue.vcloneList_id vs]

/-- Cloning a nullable argument vector is the identity (wildcards stay
wildcards). -/
theorem RamValue.vcloneOpts_id : (l : List (Option RamValue)) → RamValue.vcloneOpts l = l
  | [] => rfl
  | none :: vs => by rw [RamValue.vcloneOpts, RamValue.vcloneOpts_id vs]
  | some v :: vs => by
      rw [RamValue.vcloneOpts, RamValue.vclone_id v, RamValue.vcloneOpts_id vs]

end

/-- `RamScan::clone` reproduces the scan: concrete check on
`scanExample`. -/
theorem scanExample_clone_equal :
    RamOperation.opequal (RamOperation.opclone scanExample) scanExample = true := by
  decide

/-- `RamPack::clone` reproduces the pack, null wildcard slots included:
concrete check on `packExample`. -/
theorem packExample_clone_equal :
    RamValue.vequal (RamValue.vclone packExample) packExample = true := by
  decide

/-- The clone of `aggregateExample` duplicates the aggregate operation
into the nested slot. -/
theorem aggregateExample_clone_eval :
    RamOperation.opclone aggregateExample
      = .aggregate (.project relR []) .COUNT (.project relR []) := rfl

/-- C1: for every IR node `n`, `clone(n)` is structurally equal to `n` —
refuted on `RamAggregate`.  Because `RamAggregate::getOperation()`
(RamOperation.h lines 244-248) hides the inherited accessor for the
nested operation, `RamAggregate::clone` (lines 279-285) constructs
`RamAggregate(getOperation().clone(), fun, aggOperation->clone())`, whose
nested slot receives a clone of the *aggregate* operation.  On
`aggregateExample` (nested operation `RETURN ()`, aggregate operation
`PROJECT () INTO R`) the clone is therefore not `equal` to the
original. -/
theorem claim_C1_aggregate_clone_not_equal :
    RamOperation.opequal (RamOperation.opclone aggregateExample) aggregateExample = false := by
  decide

/-- Every bit of the running bitmask of
`getRangeQueryColumnsHelper`: generalised over the start index of the
enumeration and the accumulator. -/
theorem keysFold_testBit (l : List (Option RamValue)) :
    ∀ (n acc j : Nat),
      (List.foldl (fun keys p => if p.2.isSome then keys ||| (1 <<< p.1) else keys) acc
          (List.enumFrom n l)).testBit j
        = (acc.testBit j || (decide (n ≤ j) && (l.getD (j - n) none).isSome)) := by
  induction l with
  | nil =>
    intro n acc j
    simp [List.enumFrom, List.getD]
  | cons slot rest ih =>
    intro n acc j
    have hbit : ∀ m : Nat, (1 <<< m : Nat).testBit j = decide (m = j) := fun m => by
      rw [Nat.one_shiftLeft, Nat.testBit_two_pow]
    rw [List.enumFrom_cons, List.foldl_cons, ih (n + 1)]
    rcases Nat.lt_trichotomy j n with hlt | heq | hgt
    · have e1 : (decide (n ≤ j)) = false := decide_eq_false (by omega)
      have e2 : (decide (n + 1 ≤ j)) = false := decide_eq_false (by omega)
      have e3 : (decide (n = j)) = false := decide_eq_false (by omega)
      cases slot <;> simp [e1, e2, e3, Nat.testBit_lor, hbit]
    · subst heq
      have e2 : (decide (j + 1 ≤ j)) = false := decide_eq_false (by omega)
      have e1 : (decide (j ≤ j)) = true := by simp
      cases slot <;>
        simp [e1, e2, Nat.testBit_lor, hbit, Nat.sub_self, List.getD_cons_zero]
    · have e1 : (decide (n ≤ j)) = true := decide_eq_true (by omega)
      have e2 : (decide (n + 1 ≤ j)) = true := decide_eq_true (by omega)
      have e3 : (decide (n = j)) = false := decide_eq_false (by omega)
      have esub : j - n = (j - (n + 1)) + 1 := by omega
      rw [esub, List.getD_cons_succ]
      cases slot <;> simp [e1, e2, e3, Nat.testBit_lor, hbit]

/-- C2: the IndexScanKeys analysis returns a bitmask in which bit `i` is
set iff the `i`-th pattern slot is non-null: for every range pattern and
every index `i`, bit `i` of `getRangeQueryColumnsHelper pattern` is set
exactly when slot `i` exists and is concrete, and in particular every bit
at a position at or beyond the pattern length is clear (there `getD`
yields the `none` default). -/
theorem claim_C2_indexScanKeys_bitmask (rangePattern : List (Option RamValue)) (i : Nat) :
    (getRangeQueryColumnsHelper rangePattern).testBit i
      = (rangePattern.getD i none).isSome := by
  have h := keysFold_testBit rangePattern 0 0 i
  simp only [Nat.zero_testBit, Bool.false_or, Nat.sub_zero, Nat.zero_le,
    decide_eq_true_eq, decide_True, Bool.true_and] at h
  exact h

/-! ### Location order and ValueIndex lemmas -/

/-- Propositional characterisation of `Location::operator<`. -/
theorem locationLt_iff (a b : Location) :
    locationLt a b = true
      ↔ (a.level < b.level ∨ (a.level = b.level ∧ a.component < b.component)) := by
  simp [locationLt]

/-- Propositional characterisation of the negation of
`Location::operator<`. -/
theorem locationLt_false_iff (a b : Location) :
    locationLt a b = false
      ↔ ¬(a.level < b.level ∨ (a.level = b.level ∧ a.component < b.component)) := by
  simp [locationLt]

/-- The head of a set after insertion is the smaller of the inserted
element and the previous head. -/
theorem setInsert_head (l : Location) (s : List Location) :
    (setInsert l s).head?
      = some (match s.head? with
        | none => l
        | some x => if locationLt l x then l else x) := by
  cases s with
  | nil => rfl
  | cons x xs =>
    by_cases h1 : locationLt l x
    · simp [setInsert, h1]
    · by_cases h2 : locationLt x l <;> simp [setInsert, h1, h2]

/-- Inserting a location into the variable map updates the set found for
that name, default-constructing an empty set when the name was absent. -/
theorem find_mapInsert_same (k : String) (l : Location) :
    ∀ m : List (String × List Location),
      Option.map (fun e => e.2) ((mapInsertLocation m k l).find? (fun e => e.1 == k))
        = some (setInsert l
            ((Option.map (fun e => e.2) (m.find? (fun e => e.1 == k))).getD [])) := by
  intro m
  induction m with
  | nil =>
    rw [mapInsertLocation]
    simp [List.find?_cons, setInsert]
  | cons e rest ih =>
    obtain ⟨k0, s⟩ := e
    rw [mapInsertLocation]
    by_cases h : (k0 == k) = true
    · rw [if_pos h]
      simp [List.find?_cons, h]
    · have hf : (k0 == k) = false := by revert h; cases k0 == k <;> simp
      rw [if_neg (by simp [hf])]
      simpa [List.find?_cons, hf] using ih

/-- Inserting a location into the variable map leaves lookups for other
names untouched. -/
theorem find_mapInsert_other (k k2 : String) (l : Location) (h : ¬ k = k2) :
    ∀ m : List (String × List Location),
      (mapInsertLocation m k l).find? (fun e => e.1 == k2)
        = m.find? (fun e => e.1 == k2) := by
  have hb : (k == k2) = false := by simp [h]
  intro m
  induction m with
  | nil =>
    rw [mapInsertLocation]
    simp [List.find?_cons, hb]
  | cons e rest ih =>
    obtain ⟨k0, s⟩ := e
    rw [mapInsertLocation]
    by_cases h0 : (k0 == k) = true
    · have h0e : k0 = k := by simpa using h0
      have hb0 : (k0 == k2) = false := by simp [h0e, h]
      rw [if_pos h0]
      simp [List.find?_cons, hb0]
    · have hf : (k0 == k) = false := by revert h0; cases k0 == k <;> simp
      rw [if_neg (by simp [hf])]
      by_cases h2 : (k0 == k2) = true
      · simp [List.find?_cons, h2]
      · have h2f : (k0 == k2) = false := by revert h2; cases k0 == k2 <;> simp
        simpa [List.find?_cons, h2f] using ih

/-- One `addVarReference` call inserts into the set of the given name. -/
theorem lookupVarSet_addVar_same (vi : ValueIndex) (k : String) (l : Location) :
    (vi.addVarReference k l).lookupVarSet k
      = some (setInsert l ((vi.lookupVarSet k).getD [])) :=
  find_mapInsert_same k l vi.var_references

/-- One `addVarReference` call leaves the sets of other names
untouched. -/
theorem lookupVarSet_addVar_other (vi : ValueIndex) (k k2 : String) (l : Location)
    (h : ¬ k = k2) :
    (vi.addVarReference k l).lookupVarSet k2 = vi.lookupVarSet k2 := by
  simp only [ValueIndex.lookupVarSet, ValueIndex.addVarReference]
  rw [find_mapInsert_other k k2 l h]

/-- `addVarReference` preserves the `HeadMin` invariant, extending the
record of inserted locations when the names match. -/
theorem addVar_headMin (vi : ValueIndex) (varName : String) (R : List Location)
    (l : Location) (k : String) (h : HeadMin vi varName R) :
    HeadMin (vi.addVarReference k l) varName (R ++ if k == varName then [l] else []) := by
  by_cases hk : k = varName
  · subst hk
    simp only [beq_self_eq_true, if_true]
    rcases h with ⟨hnone, hR⟩ | ⟨s, h0, hlook, hhead, hmem, hmin⟩
    · subst hR
      refine Or.inr ⟨setInsert l ((vi.lookupVarSet k).getD []), l,
        lookupVarSet_addVar_same vi k l, ?_, by simp, ?_⟩
      · rw [hnone]
        simp [setInsert]
      · intro x hx
        simp only [List.nil_append, List.mem_singleton] at hx
        subst hx
        rw [locationLt_false_iff]
        omega
    · refine Or.inr ?_
      have hins := lookupVarSet_addVar_same vi k l
      rw [hlook] at hins
      simp only [Option.getD_some] at hins
      have hh := setInsert_head l s
      rw [hhead] at hh
      by_cases hlt : locationLt l h0
      · refine ⟨setInsert l s, l, hins, by rw [hh]; simp [hlt], by simp, ?_⟩
        intro x hx
        rcases List.mem_append.mp hx with hx | hx
        · have hxh := hmin x hx
          rw [locationLt_false_iff] at hxh ⊢
          rw [locationLt_iff] at hlt
          omega
        · simp only [List.mem_singleton] at hx
          subst hx
          rw [locationLt_false_iff]
          omega
      · have hlt2 : locationLt l h0 = false := by
          revert hlt; cases locationLt l h0 <;> simp
        refine ⟨setInsert l s, h0, hins, by rw [hh]; simp [hlt2], by simp [hmem], ?_⟩
        intro x hx
        rcases List.mem_append.mp hx with hx | hx
        · exact hmin x hx
        · simp only [List.mem_singleton] at hx
          subst hx
          exact hlt2
  · have hb : (k == varName) = false := by simp [hk]
    simp only [hb, Bool.false_eq_true, if_false, List.append_nil]
    rcases h with ⟨hnone, hR⟩ | ⟨s, h0, hlook, hhead, hmem, hmin⟩
    · exact Or.inl ⟨by rw [lookupVarSet_addVar_other vi k varName l hk]; exact hnone, hR⟩
    · exact Or.inr ⟨s, h0, by rw [lookupVarSet_addVar_other vi k varName l hk]; exact hlook,
        hhead, hmem, hmin⟩

/-- Folding a history of `addVarReference` calls preserves `HeadMin`. -/
theorem buildFold_headMin (history : List (String × Location)) :
    ∀ (vi : ValueIndex) (varName : String) (R : List Location),
      HeadMin vi varName R →
      HeadMin (history.foldl (fun v e => v.addVarReference e.1 e.2) vi) varName
        (R ++ historyLocs history varName) := by
  induction history with
  | nil =>
    intro vi varName R h
    simpa [historyLocs]
  | cons e rest ih =>
    intro vi varName R h
    obtain ⟨k, l⟩ := e
    have hsplit : historyLocs ((k, l) :: rest) varName
        = (if k == varName then [l] else []) ++ historyLocs rest varName := by
      by_cases hk : k = varName
      · subst hk; simp [historyLocs, List.filter]
      · have hb : (k == varName) = false := by simp [hk]
        simp [historyLocs, List.filter, hb]
    rw [hsplit, List.foldl_cons, ← List.append_assoc]
    exact ih (vi.addVarReference k l) varName (R ++ if k == varName then [l] else [])
      (addVar_headMin vi varName R l k h)

/-- C3 counterexample: record `v` at location `(2,0)` and then at
`(1,3)`; the first recorded occurrence is `(2,0)`, but
`getDefinitionPoint` returns `(1,3)` — the begin of the ordered
`std::set`, not the first insertion. -/
theorem claim_C3_counterexample :
    (buildIndex historyExample).getDefinitionPoint "v" = some ⟨1, 3, ""⟩ ∧
      historyExample.head? = some ("v", ⟨2, 0, ""⟩) ∧
      ¬ (buildIndex historyExample).getDefinitionPoint "v" = some ⟨2, 0, ""⟩ := by
  refine ⟨by decide, by decide, by decide⟩

/-- C3 (amended): for every variable `v` recorded in a `ValueIndex` by
one or more `addVarReference` calls, `getDefinitionPoint v` returns the
least recorded occurrence of `v` in the `(level, component)`
lexicographic order (the first element of the ordered location set) —
not necessarily the earliest `addVarReference` call — and a reference to
`v` is translated to a `RamElementAccess` at exactly this location. -/
theorem claim_C3_amended_definition_point_least (history : List (String × Location))
    (varName : String) (hne : historyLocs history varName ≠ []) :
    ∃ m, (buildIndex history).getDefinitionPoint varName = some m ∧
      m ∈ historyLocs history varName ∧
      (∀ l ∈ historyLocs history varName, locationLt l m = false) ∧
      translateValue (.variableArg varName) (buildIndex history)
        = .ok (some (.elementAccess m.level.toNat m.component.toNat m.name)) := by
  have hbase : HeadMin ValueIndex.emptyIndex varName [] := Or.inl ⟨rfl, rfl⟩
  have h := buildFold_headMin history ValueIndex.emptyIndex varName [] hbase
  simp only [List.nil_append] at h
  rcases h with ⟨_, habs⟩ | ⟨s, m, hlook, hhead, hmem, hmin⟩
  · exact absurd habs hne
  · have hdef : (buildIndex history).getDefinitionPoint varName = some m := by
      rw [buildIndex, ValueIndex.getDefinitionPoint, hlook]
      exact hhead
    refine ⟨m, hdef, hmem, hmin, ?_⟩
    rw [translateValue, hdef]

/-- C3 witness: concrete application of the amended theorem to
`historyExample`. -/
theorem claim_C3_witness :
    historyLocs historyExample "v" ≠ [] ∧
      (∃ m, (buildIndex historyExample).getDefinitionPoint "v" = some m ∧
        m ∈ historyLocs historyExample "v" ∧
        (∀ l ∈ historyLocs historyExample "v", locationLt l m = false) ∧
        translateValue (.variableArg "v") (buildIndex historyExample)
          = .ok (some (.elementAccess m.level.toNat m.component.toNat m.name))) :=
  ⟨by decide, claim_C3_amended_definition_point_least historyExample "v" (by decide)⟩

/-- C9: `ValueIndex` lookups never fail silently: `getDefinitionPoint`
for an unrecorded variable, the record definition point and unpack level
for an unregistered record init, and `getAggregatorLocation` for an
unprocessed aggregator all signal the fatal invariant violation (the
failed `assert`, modelled as `none`) instead of returning a defined
default location. -/
theorem claim_C9_lookups_fail_fatally (vi : ValueIndex) (varName : String) (init : Nat)
    (agg : AstAggregator) :
    (vi.isDefined varName = false → vi.getDefinitionPoint varName = none) ∧
      (init ∉ vi.record_definitions.map (fun e => e.1) →
        vi.getDefinitionPointRecord init = none) ∧
      (init ∉ vi.record_unpacks.map (fun e => e.1) →
        vi.getRecordUnpackLevel init = none) ∧
      ((∀ cur ∈ vi.aggregator_locations, ¬ cur.1 = agg) →
        vi.getAggregatorLocation agg = none) := by
  refine ⟨?_, ?_, ?_, ?_⟩
  · intro h
    cases hfind : List.find? (fun e => e.1 == varName) vi.var_references with
    | none =>
      rw [ValueIndex.getDefinitionPoint, ValueIndex.lookupVarSet, hfind]
      rfl
    | some e =>
      rw [ValueIndex.isDefined, hfind] at h
      simp at h
  · intro h
    have hfind : vi.record_definitions.find? (fun e => e.1 == init) = none := by
      rw [List.find?_eq_none]
      intro x hx
      simp only [beq_iff_eq]
      intro heq
      exact h (List.mem_map.mpr ⟨x, hx, heq⟩)
    rw [ValueIndex.getDefinitionPointRecord, hfind]
    rfl
  · intro h
    have hfind : vi.record_unpacks.find? (fun e => e.1 == init) = none := by
      rw [List.find?_eq_none]
      intro x hx
      simp only [beq_iff_eq]
      intro heq
      exact h (List.mem_map.mpr ⟨x, hx, heq⟩)
    rw [ValueIndex.getRecordUnpackLevel, hfind]
    rfl
  · intro h
    have hfind : vi.aggregator_locations.find? (fun cur => cur.1 == agg) = none := by
      rw [List.find?_eq_none]
      intro x hx
      simp only [beq_iff_eq]
      exact h x hx
    rw [ValueIndex.getAggregatorLocation, hfind]
    rfl

/-- C9 witness: concrete application to the empty index. -/
theorem claim_C9_witness :
    ValueIndex.emptyIndex.getDefinitionPoint "v" = none ∧
      ValueIndex.emptyIndex.getDefinitionPointRecord 0 = none ∧
      ValueIndex.emptyIndex.getRecordUnpackLevel 0 = none ∧
      ValueIndex.emptyIndex.getAggregatorLocation agg0 = none := by
  have h := claim_C9_lookups_fail_fatally ValueIndex.emptyIndex "v" 0 agg0
  exact ⟨h.1 (by decide), h.2.1 (by decide), h.2.2.1 (by decide), h.2.2.2 (by decide)⟩

/-- Inserting an element equivalent (equal `(level, component)`) to an
element already inserted is a no-op. -/
theorem setInsert_collapse {a b : Location} (hl : a.level = b.level)
    (hc : a.component = b.component) :
    ∀ s : List Location, setInsert b (setInsert a s) = setInsert a s := by
  have hba : locationLt b a = false := by rw [locationLt_false_iff]; omega
  have hab : locationLt a b = false := by rw [locationLt_false_iff]; omega
  intro s
  induction s with
  | nil => simp [setInsert, hba, hab]
  | cons x xs ih =>
    by_cases h1 : locationLt a x
    · have h2 : locationLt b x = true := by
        rw [locationLt_iff] at h1 ⊢
        omega
      simp [setInsert, h1, h2, hba, hab]
    · have h1f : locationLt a x = false := by
        revert h1; cases locationLt a x <;> simp
      by_cases h2 : locationLt x a
      · have h3 : locationLt b x = false := by
          rw [locationLt_iff] at h2
          rw [locationLt_false_iff]
          omega
        have h4 : locationLt x b = true := by
          rw [locationLt_iff] at h2 ⊢
          omega
        simp [setInsert, h1f, h2, h3, h4, ih]
      · have h2f : locationLt x a = false := by
          revert h2; cases locationLt x a <;> simp
        have h3 : locationLt b x = false := by
          rw [locationLt_false_iff] at h1f ⊢
          omega
        have h4 : locationLt x b = false := by
          rw [locationLt_false_iff] at h2f ⊢
          omega
        simp [setInsert, h1f, h2f, h3, h4]

/-- Re-inserting an equivalent location into the variable map is a
no-op. -/
theorem mapInsert_collapse {a b : Location} (hl : a.level = b.level)
    (hc : a.component = b.component) :
    ∀ (m : List (String × List Location)) (k : String),
      mapInsertLocation (mapInsertLocation m k a) k b = mapInsertLocation m k a := by
  intro m k
  induction m with
  | nil =>
    have hba : locationLt b a = false := by rw [locationLt_false_iff]; omega
    have hab : locationLt a b = false := by rw [locationLt_false_iff]; omega
    simp [mapInsertLocation, setInsert, hba, hab]
  | cons e rest ih =>
    obtain ⟨k0, s⟩ := e
    by_cases h : k0 == k <;> simp [mapInsertLocation, h, ih, setInsert_collapse hl hc]

/-- C10: `Location` equality and ordering ignore the `name` field: two
locations agreeing on `(level, component)` compare equal, are
indistinguishable by `operator<` against any third location, and two
`addVarReference` calls for the same `(level, component)` with different
labels collapse to a single entry of the variable's location set (the
second call leaves the index unchanged). -/
theorem claim_C10_location_ignores_name (a b : Location)
    (hl : a.level = b.level) (hc : a.component = b.component) :
    locationEq a b = true ∧
      (∀ c : Location, locationLt a c = locationLt b c ∧ locationLt c a = locationLt c b) ∧
      ∀ (vi : ValueIndex) (varName : String),
        (vi.addVarReference varName a).addVarReference varName b
          = vi.addVarReference varName a := by
  refine ⟨?_, ?_, ?_⟩
  · simp [locationEq, hl, hc]
  · intro c
    constructor <;> simp [locationLt, hl, hc]
  · intro vi varName
    simp [ValueIndex.addVarReference, mapInsert_collapse hl hc]

/-- C10 witness: concrete application to `locX` and `locY`, which differ
only in their name strings. -/
theorem claim_C10_witness :
    locationEq locX locY = true ∧
      (ValueIndex.emptyIndex.addVarReference "x" locX).addVarReference "x" locY
        = ValueIndex.emptyIndex.addVarReference "x" locX :=
  ⟨(claim_C10_location_ignores_name locX locY rfl rfl).1,
   (claim_C10_location_ignores_name locX locY rfl rfl).2.2 ValueIndex.emptyIndex "x"⟩

/-! ### translateUnit and translateProgram -/

/-- C4: `translateUnit` should wrap the non-null result of
`translateProgram` — refuted: `ramProg` is initialised to `nullptr` and
never assigned (AstTranslator.cpp lines 548-570), so for *every* input
the returned translation unit's program is null, `translateProgram` is
never invoked, and the guarded `ram-program` debug-report section is
never added; only the symbol table, error report and debug report are
passed through. -/
theorem claim_C4_translateUnit_program_always_null (cfg : Config)
    (tu : AstTranslationUnitModel) :
    (translateUnit cfg tu).program = none ∧
      (translateUnit cfg tu).debugReport = tu.debugReport ∧
      (translateUnit cfg tu).symbolTable = tu.symbolTable ∧
      (translateUnit cfg tu).errorReport = tu.errorReport := by
  refine ⟨rfl, ?_, rfl, rfl⟩
  rw [translateUnit]
  dsimp only
  split <;> rfl

/-- Folding a loop body of the shape `cur := cur ++ g x` over a list
appends the concatenation of the per-element emissions. -/
theorem foldl_append_general {α β : Type} (g : α → List β) (step : List β → α → List β)
    (hstep : ∀ cur x, step cur x = cur ++ g x) :
    ∀ (l : List α) (init : List β), l.foldl step init = init ++ l.flatMap g := by
  intro l
  induction l with
  | nil => intro init; simp
  | cons x xs ih =>
    intro init
    rw [List.foldl_cons, hstep, ih, List.flatMap_cons, List.append_assoc]

/-- The create loop of `translateProgram` emits exactly the spec's create
block. -/
theorem foldl_create (scc : SCCData) :
    ∀ init,
      scc.allInterns.foldl
        (fun cur relation =>
          let cur := appendStmt cur (some (makeRamCreate relation ""))
          if scc.isRecursive then
            appendStmt (appendStmt cur (some (makeRamCreate relation "delta_")))
              (some (makeRamCreate relation "new_"))
          else cur) init
      = init ++ specCreateStatements scc := by
  intro init
  rw [specCreateStatements]
  refine foldl_append_general _ _ ?_ scc.allInterns init
  intro cur relation
  cases hrec : scc.isRecursive <;> simp [appendStmt, hrec]

/-- A loop appending one statement per element emits the mapped list. -/
theorem foldl_emit_map {α : Type} (f : α → RamStatement) :
    ∀ (l : List α) (init : List RamStatement),
      l.foldl (fun cur x => appendStmt cur (some (f x))) init = init ++ l.map f := by
  intro l
  induction l with
  | nil => intro init; simp
  | cons x xs ih =>
    intro init
    rw [List.foldl_cons]
    rw [show appendStmt init (some (f x)) = init ++ [f x] from rfl, ih, List.map_cons,
      List.append_assoc]
    rfl

/-- The printsize loop emits one statement per flagged relation. -/
theorem foldl_printSize :
    ∀ (l : List AstRelation) (init : List RamStatement),
      l.foldl
        (fun cur relation =>
          if relation.isPrintSize then appendStmt cur (some (makeRamPrintSize relation))
          else cur) init
      = init ++ (l.filter (fun relation => relation.isPrintSize)).map makeRamPrintSize := by
  intro l
  induction l with
  | nil => intro init; simp
  | cons x xs ih =>
    intro init
    rw [List.foldl_cons]
    cases hx : x.isPrintSize
    · rw [if_neg (by simp), ih, List.filter_cons]
      simp [hx]
    · rw [if_pos rfl,
        show appendStmt init (some (makeRamPrintSize x)) = init ++ [makeRamPrintSize x] from rfl,
        ih, List.filter_cons]
      simp [hx, List.append_assoc]

/-- Appending an optional statement appends its `toList`. -/
theorem appendStmt_toList (cur : List RamStatement) (o : Option RamStatement) :
    appendStmt cur o = cur ++ o.toList := by
  cases o <;> simp [appendStmt]

/-- The body of the per-SCC loop of `translateProgram` emits exactly the
eight phase blocks of the spec's per-stratum plan, concatenated in
order. -/
theorem stratumStmts_phases (cfg : Config) (scc : SCCData) (internExps : List AstRelation)
    (translateNonRecursiveRelation : AstRelation → Option RamStatement)
    (translateRecursiveRelation : List AstRelation → Option RamStatement) :
    stratumStmts cfg scc internExps translateNonRecursiveRelation translateRecursiveRelation
      = specCreateStatements scc ++ specFactLoadStatements cfg scc
        ++ specEngineLoadStatements cfg scc
        ++ specBodyStatements scc translateNonRecursiveRelation translateRecursiveRelation
        ++ specPrintSizeStatements scc ++ specEngineStoreStatements cfg scc
        ++ specOutputStoreStatements cfg scc ++ specDropStatements cfg scc internExps := by
  rw [stratumStmts]
  dsimp only
  rw [foldl_create scc]
  rw [foldl_emit_map (fun relation => makeRamLoad cfg relation "fact-dir" ".facts")]
  cases he : cfg.has "engine" <;> cases hp : cfg.has "provenance" <;>
    simp only [he, hp, Bool.false_eq_true, Bool.not_false, Bool.not_true, if_false, if_true,
      ite_true, ite_false, if_neg, Bool.true_eq_false] <;>
    rw [appendStmt_toList, foldl_printSize] <;>
    simp only [foldl_emit_map (fun relation => makeRamLoad cfg relation "output-dir" ".csv"),
      foldl_emit_map (fun relation => makeRamLoad cfg relation "output-dir" ".facts"),
      foldl_emit_map (fun relation => makeRamStore cfg relation "output-dir" ".facts"),
      foldl_emit_map (fun relation => makeRamStore cfg relation "output-dir" ".csv"),
      foldl_emit_map makeRamDrop] <;>
    simp [specFactLoadStatements, specEngineLoadStatements, specBodyStatements,
      specPrintSizeStatements, specEngineStoreStatements, specOutputStoreStatements,
      specDropStatements, he, hp, List.append_assoc]

/-- C5: for every SCC, the statements emitted into its stratum begin, in
this order, with the `Create` block (every internal relation, plus
`delta_` and `new_` variants when the SCC is recursive), then the `Load`
of every internal input relation (`fact-dir`, `.facts`), then — only when
the engine option is configured — the loads of external output
predecessors (`.csv`) and external non-output predecessors (`.facts`),
followed by the body statement; the remaining phases (printsize, stores,
drops) come after. -/
theorem claim_C5_stratum_opening_order (cfg : Config) (scc : SCCData)
    (internExps : List AstRelation)
    (translateNonRecursiveRelation : AstRelation → Option RamStatement)
    (translateRecursiveRelation : List AstRelation → Option RamStatement) :
    stratumStmts cfg scc internExps translateNonRecursiveRelation translateRecursiveRelation
      = specCreateStatements scc ++ specFactLoadStatements cfg scc
        ++ specEngineLoadStatements cfg scc
        ++ specBodyStatements scc translateNonRecursiveRelation translateRecursiveRelation
        ++ (specPrintSizeStatements scc ++ specEngineStoreStatements cfg scc
          ++ specOutputStoreStatements cfg scc ++ specDropStatements cfg scc internExps) := by
  rw [stratumStmts_phases]
  simp [List.append_assoc]

/-- C6: the `Drop` statements of a stratum form its final block and are
emitted only when the provenance option is absent; in that case, with an
engine configured the stratum drops all internal relations and all
external output and non-output predecessors (in this order), and without
an engine it drops exactly the expired relations of the current
stratum. -/
theorem claim_C6_stratum_drops (cfg : Config) (scc : SCCData)
    (internExps : List AstRelation)
    (translateNonRecursiveRelation : AstRelation → Option RamStatement)
    (translateRecursiveRelation : List AstRelation → Option RamStatement) :
    (stratumStmts cfg scc internExps translateNonRecursiveRelation translateRecursiveRelation
      = (specCreateStatements scc ++ specFactLoadStatements cfg scc
        ++ specEngineLoadStatements cfg scc
        ++ specBodyStatements scc translateNonRecursiveRelation translateRecursiveRelation
        ++ specPrintSizeStatements scc ++ specEngineStoreStatements cfg scc
        ++ specOutputStoreStatements cfg scc) ++ specDropStatements cfg scc internExps) ∧
      (cfg.has "provenance" = true → specDropStatements cfg scc internExps = []) ∧
      (cfg.has "provenance" = false → cfg.has "engine" = true →
        specDropStatements cfg scc internExps
          = (scc.allInterns ++ scc.externOutPreds ++ scc.externNonOutPreds).map makeRamDrop) ∧
      (cfg.has "provenance" = false → cfg.has "engine" = false →
        specDropStatements cfg scc internExps = internExps.map makeRamDrop) := by
  refine ⟨?_, ?_, ?_, ?_⟩
  · rw [stratumStmts_phases]
  · intro hp
    simp [specDropStatements, hp]
  · intro hp he
    simp [specDropStatements, hp, he]
  · intro hp he
    simp [specDropStatements, hp, he]

/-- C6 witness: with provenance set the drop block is empty; without
provenance and without an engine it is exactly the expiry set. -/
theorem claim_C6_witness :
    specDropStatements cfgProvenance sccA [] = [] ∧
      specDropStatements cfgEmpty sccA [relA] = [relA].map makeRamDrop :=
  ⟨(claim_C6_stratum_drops cfgProvenance sccA [] tNone tRNone).2.1 (by decide),
   (claim_C6_stratum_drops cfgEmpty sccA [relA] tNone tRNone).2.2.2 (by decide) (by decide)⟩

/-- The provenance subroutine loop collects one labelled subroutine per
clause that is neither an `@info` clause nor a fact. -/
theorem foldl_subroutines (mkSub : AstClause → RamStatement) :
    ∀ (clauses : List AstClause) (acc : List (String × RamStatement)),
      clauses.foldl
        (fun acc clause =>
          if stringFind clause.headName "@info" || clause.bodyLiterals == 0 then acc
          else
            acc ++ [(clause.headName ++ "_" ++ toString clause.clauseNum ++ "_subproof",
              mkSub clause)]) acc
      = acc ++ (clauses.filter
            (fun clause => !(stringFind clause.headName "@info" || clause.bodyLiterals == 0))).map
          (fun clause =>
            (clause.headName ++ "_" ++ toString clause.clauseNum ++ "_subproof",
              mkSub clause)) := by
  intro clauses
  induction clauses with
  | nil => intro acc; simp
  | cons c rest ih =>
    intro acc
    rw [List.foldl_cons]
    cases hc : (stringFind c.headName "@info" || c.bodyLiterals == 0)
    · rw [if_neg (by simp), ih, List.filter_cons]
      simp [hc, List.append_assoc]
    · rw [if_pos rfl, ih, List.filter_cons]
      simp [hc]

/-- C7: for a program with at least one SCC, `translateProgram` adds,
when the provenance option is set, exactly one subroutine named
`<relationName>_<clauseNum>_subproof` for every clause whose head
relation name does not contain `@info` and whose body is non-empty, in
clause order, and adds no subroutine for `@info` clauses, for clauses
with empty bodies, or when provenance is not set. -/
theorem claim_C7_provenance_subroutines (cfg : Config) (sccOrder : List SCCData)
    (expirySchedule : List (List AstRelation)) (clauses : List AstClause)
    (translateNonRecursiveRelation : AstRelation → Option RamStatement)
    (translateRecursiveRelation : List AstRelation → Option RamStatement)
    (makeSubproofSubroutine : AstClause → RamStatement) (h : sccOrder ≠ []) :
    (translateProgram cfg sccOrder expirySchedule clauses translateNonRecursiveRelation
        translateRecursiveRelation makeSubproofSubroutine).subroutines
      = if cfg.has "provenance" then
          (clauses.filter
              (fun clause =>
                !(stringFind clause.headName "@info" || clause.bodyLiterals == 0))).map
            (fun clause =>
              (clause.headName ++ "_" ++ toString clause.clauseNum ++ "_subproof",
                makeSubproofSubroutine clause))
        else [] := by
  have hne : sccOrder.isEmpty = false := by
    cases sccOrder with
    | nil => exact absurd rfl h
    | cons a l => rfl
  rw [translateProgram, if_neg (by simp [hne])]
  dsimp only
  cases hp : cfg.has "provenance"
  · simp
  · rw [if_pos rfl, if_pos rfl, foldl_subroutines]
    simp

/-- C7 witness: with provenance set, the program with clauses `A :- …`,
`A@info :- …` and the fact `A.` gets exactly the subroutine
`A_1_subproof` for the first clause. -/
theorem claim_C7_witness :
    (translateProgram cfgProvenance [sccA] [] [clauseA, clauseInfo, clauseFact] tNone tRNone
        makeSubproofSubroutine0).subroutines
      = [("A_1_subproof", makeSubproofSubroutine0 clauseA)] := by
  rw [claim_C7_provenance_subroutines cfgProvenance [sccA] [] [clauseA, clauseInfo, clauseFact]
    tNone tRNone makeSubproofSubroutine0 (by simp)]
  rfl

/-- C8: for an AST translation unit whose SCC graph has zero SCCs,
`translateProgram` returns early with a RAM program whose top-level
statement is a single empty `Sequence` and which contains no strata (and
no subroutines, the early return preceding the provenance pass). -/
theorem claim_C8_empty_program (cfg : Config) (expirySchedule : List (List AstRelation))
    (clauses : List AstClause)
    (translateNonRecursiveRelation : AstRelation → Option RamStatement)
    (translateRecursiveRelation : List AstRelation → Option RamStatement)
    (makeSubproofSubroutine : AstClause → RamStatement) :
    translateProgram cfg [] expirySchedule clauses translateNonRecursiveRelation
        translateRecursiveRelation makeSubproofSubroutine
      = { main := .sequence [], subroutines := [] } := by
  rw [translateProgram]
  rfl

end Souffle
